import Mathlib

/-!
Verification of the Canvas LMS assignment-sync plugin (`src/main.ts` and
`src/courseSettingsParser.ts`).  The TypeScript source is embedded shallowly:
pure string manipulation becomes Lean functions on `List Char` / `String`,
the stateful reconciler becomes explicit state passing over a `SyncState`
record, and host-application collaborators (HTTP transport, file storage,
frontmatter processing, HTML conversion, timestamp formatting) are passed in
as explicit parameters or modelled from the spec where noted.
-/

namespace CanvasLMS

/-! ## Generic JavaScript string primitives -/

/-- One step of `String.prototype.split` with a single-character separator,
working on character lists.  `"".split(sep)` is `[""]`, matching JS. -/
def splitChar (sep : Char) : List Char → List (List Char)
  | [] => [[]]
  | c :: cs =>
    match splitChar sep cs with
    | [] => []
    | h :: t => if c = sep then [] :: h :: t else (c :: h) :: t

/-- `String.prototype.trim`: drop whitespace from both ends. -/
def jsTrimL (cs : List Char) : List Char :=
  ((cs.dropWhile Char.isWhitespace).reverse.dropWhile Char.isWhitespace).reverse

/-- `String.prototype.replace` with a *string* pattern: replaces only the
first occurrence of `pat` (an empty pattern matches at the start, as in JS). -/
def jsReplaceFirst : List Char → List Char → List Char → List Char
  | [], pat, repl => if pat = [] then repl else []
  | c :: cs, pat, repl =>
    if pat.isPrefixOf (c :: cs) then repl ++ (c :: cs).drop pat.length
    else c :: jsReplaceFirst cs pat repl

/-- Value of a list of decimal digits. -/
def digitsToNat (ds : List Char) : Nat :=
  ds.foldl (fun n c => n * 10 + (c.toNat - 48)) 0

/-- Value of a list of hexadecimal digits. -/
def hexVal (c : Char) : Nat :=
  if c.isDigit then c.toNat - 48
  else if 'a' ≤ c ∧ c ≤ 'f' then c.toNat - 87
  else c.toNat - 55

def isHexDigitChar (c : Char) : Bool :=
  c.isDigit ∨ ('a' ≤ c ∧ c ≤ 'f') ∨ ('A' ≤ c ∧ c ≤ 'F')

def hexToNat (ds : List Char) : Nat :=
  ds.foldl (fun n c => n * 16 + hexVal c) 0

/-- JavaScript `parseInt(s)` with no radix argument: skip leading whitespace,
an optional sign, a `0x`/`0X` prefix selecting base 16, then the longest
prefix of digits of the base; `none` models `NaN`. -/
def parseIntJS (s : String) : Option Int :=
  let cs := s.data.dropWhile Char.isWhitespace
  let signAndRest : Int × List Char :=
    match cs with
    | '-' :: rest => (-1, rest)
    | '+' :: rest => (1, rest)
    | rest => (1, rest)
  let sign := signAndRest.1
  let body := signAndRest.2
  match body with
  | '0' :: c :: rest =>
    if c = 'x' ∨ c = 'X' then
      let ds := rest.takeWhile isHexDigitChar
      if ds = [] then none else some (sign * (hexToNat ds : Int))
    else
      let ds := (('0' : Char) :: c :: rest).takeWhile Char.isDigit
      some (sign * (digitsToNat ds : Int))
  | body =>
    let ds := body.takeWhile Char.isDigit
    if ds = [] then none else some (sign * (digitsToNat ds : Int))

/-! ## JavaScript object semantics

`Object.fromEntries` and `Object.entries` are modelled on association lists:
property creation keeps first-insertion position while updating the value,
and enumeration lists array-index keys first in ascending numeric order,
then the remaining string keys in insertion order.  A property value of
`none` models a JS `undefined` value (a `key` with no `=`). -/

/-- Define or overwrite one property, keeping the original position of an
existing key (JS property creation order). -/
def insertProp : List (String × Option String) → String × Option String →
    List (String × Option String)
  | [], p => [p]
  | (k, v) :: rest, p => if k = p.1 then (k, p.2) :: rest else (k, v) :: insertProp rest p

/-- `Object.fromEntries`: fold the pairs into an object. -/
def objectOf (ps : List (String × Option String)) : List (String × Option String) :=
  ps.foldl insertProp []

/-- Canonical array-index string: nonempty digits, no leading zero (except
`"0"` itself), value below `2^32 - 1`. -/
def isArrayIndex (s : String) : Bool :=
  s.data ≠ [] ∧ s.data.all Char.isDigit ∧
    (s.data = ['0'] ∨ s.data.head? ≠ some '0') ∧
    digitsToNat s.data < 4294967295

/-- Insert into a list of properties sorted by numeric key value. -/
def insSorted (p : String × Option String) :
    List (String × Option String) → List (String × Option String)
  | [] => [p]
  | q :: rest =>
    if digitsToNat p.1.data ≤ digitsToNat q.1.data then p :: q :: rest
    else q :: insSorted p rest

/-- `Object.entries`: array-index keys first in ascending numeric order,
then the other keys in insertion order. -/
def entriesJS (obj : List (String × Option String)) : List (String × Option String) :=
  ((obj.filter fun p => isArrayIndex p.1).foldr insSorted []) ++
    obj.filter fun p => ¬ isArrayIndex p.1

/-- Property access `obj[k]`: `none` models `undefined`, whether the key is
absent or was stored with an `undefined` value. -/
def propGet (obj : List (String × Option String)) (k : String) : Option String :=
  match obj.find? fun p => p.1 = k with
  | some p => p.2
  | none => none

/-! ## Course settings parser (`src/courseSettingsParser.ts`) -/

structure CourseSettings where
  folder : String
  id : Int
  extraTags : List String
  extraFrontmatter : List (String × Option String)
deriving DecidableEq

/-- The `rule.split(";").map(kv => kv.split("=").map(s => s.trim()))` stage:
each `;`-piece becomes a (key, optional value) pair; pieces past index 1 of
an `=`-split are dropped by `Object.fromEntries`, and a piece with no `=`
has an `undefined` value. -/
def splitPairs (rule : String) : List (String × Option String) :=
  (splitChar ';' rule.data).map fun kv =>
    let parts := (splitChar '=' kv).map jsTrimL
    (String.mk (parts.headD []), (parts.get? 1).map String.mk)

/-- `parseCourseSettings` from `src/courseSettingsParser.ts`: build the
object from the split pairs, reject unless `parseInt(dict.id)` is a number,
otherwise extract `folder` (default `""`), comma-split `tags`, and keep every
other `Object.entries` pair as `extraFrontmatter`. -/
def parseCourseSettings (rule : String) : Option CourseSettings :=
  match (propGet (objectOf (splitPairs rule)) "id").bind parseIntJS with
  | none => none
  | some id =>
    some {
      id := id
      folder := (propGet (objectOf (splitPairs rule)) "folder").getD ""
      extraTags :=
        match propGet (objectOf (splitPairs rule)) "tags" with
        | some tags => ((splitChar ',' tags.data).map jsTrimL).map String.mk
        | none => []
      extraFrontmatter :=
        (entriesJS (objectOf (splitPairs rule))).filter fun p =>
          p.1 ≠ "tags" ∧ p.1 ≠ "id" ∧ p.1 ≠ "folder"
    }

/-! ## File-name sanitization (`replaceInvalidCharacters` in `src/main.ts`) -/

def quoteChar : Char := Char.ofNat 34

def apostropheChar : Char := Char.ofNat 39

/-- Membership in the character class `[/\\:\[\]|#^*&]`. -/
def isInvalidChar (c : Char) : Bool :=
  c = '/' ∨ c = '\\' ∨ c = ':' ∨ c = '[' ∨ c = ']' ∨
    c = '|' ∨ c = '#' ∨ c = '^' ∨ c = '*' ∨ c = '&'

/-- `str.replace(/[/\\:\[\]|#^*&]/g, "_").replace('"', "'")` on character
lists: a global single-character-class replace is a `map`; the second
`replace` has a string pattern, so it rewrites only the first quote. -/
def replaceInvalidCharsL (cs : List Char) : List Char :=
  jsReplaceFirst (cs.map fun c => if isInvalidChar c then '_' else c)
    [quoteChar] [apostropheChar]

def replaceInvalidCharacters (s : String) : String :=
  String.mk (replaceInvalidCharsL s.data)

/-- Spec-side one-pass description of the sanitizer, to be compared with the
two-pass `replaceInvalidCharsL` of the source: every path-hostile character is
replaced by an underscore wherever it occurs, while a double quote becomes an
apostrophe only when no quote occurred earlier (`seen` records that). -/
def sanitizeSpec : Bool → List Char → List Char
  | _, [] => []
  | seen, c :: cs =>
    if isInvalidChar c then '_' :: sanitizeSpec seen cs
    else if c = quoteChar ∧ seen = false then apostropheChar :: sanitizeSpec true cs
    else c :: sanitizeSpec seen cs

/-! ## Data model of the sync core (`src/main.ts`) -/

structure RubricItem where
  points : Int
  description : String
  long_description : Option String
deriving DecidableEq

/-- `interface APIAssignment` from `src/main.ts`. -/
structure APIAssignment where
  id : Nat
  name : String
  description : Option String
  created_at : String
  updated_at : String
  due_at : Option String
  course_id : Int
  has_submitted_submissions : Bool
  html_url : String
  rubric : Option (List RubricItem)
deriving DecidableEq

/-- A cached assignment record (`interface Assignment` in `src/main.ts`). -/
structure Assignment where
  name : String
  classID : Int
  lastUpdated : String
  filePath : String
deriving DecidableEq

/-- A note document.  Modelled from the spec: file storage in the host
application is out of scope, and a note is a structured frontmatter block
(key/value pairs, in the order the renderer emits them) followed by body
text. -/
structure Doc where
  frontmatter : List (String × String)
  body : String
deriving DecidableEq

/-- One paginated API response: parsed JSON array plus response headers. -/
structure Page where
  json : List APIAssignment
  headers : List (String × String)
deriving DecidableEq

inductive RubricMode where
  | todoList
  | table
deriving DecidableEq

/-- Host collaborators the core only calls through: local-time formatting of
a UTC timestamp (`moment.utc(x).local().format("YYYY-MM-DD HH:mm:ss")`) and
HTML-to-markdown conversion.  Both are external libraries, passed in as
opaque-to-the-core functions. -/
structure Host where
  fmtLocal : String → String
  htmlToMarkdown : String → String

inductive JsError where
  | typeError
  | transportError
deriving DecidableEq

/-- Observable side effects of a sync run, in execution order. -/
inductive Event where
  | fetchPage (course : Int) (idx : Nat)
  | createFolder (path : String)
  | createFile (path : String) (doc : Doc)
  | editFile (path : String)
  | save
deriving DecidableEq

/-- In-memory state: the assignment cache (`knownAssignments`), the files
and folders of the vault, plus the trace of effects performed so far. -/
structure SyncState where
  known : List (Nat × Assignment)
  vault : List (String × Doc)
  folders : List String
  events : List Event
deriving DecidableEq

/-- Key lookup in an association list (JS object / `Record` access;
keys are unique by construction, first match wins). -/
def lookupKey [DecidableEq α] : List (α × β) → α → Option β
  | [], _ => none
  | (k1, v1) :: rest, k => if k1 = k then some v1 else lookupKey rest k

/-- JavaScript property assignment on an association list: overwrite in
place when the key exists, append otherwise. -/
def setKey [DecidableEq α] : List (α × β) → α → β → List (α × β)
  | [], k, v => [(k, v)]
  | (k1, v1) :: rest, k, v =>
    if k1 = k then (k1, v) :: rest else (k1, v1) :: setKey rest k v

def addEvent (st : SyncState) (e : Event) : SyncState :=
  { st with events := st.events ++ [e] }

def stripTrailingSlash (cs : List Char) : List Char :=
  match cs.reverse with
  | '/' :: rest => rest.reverse
  | _ => cs

def stripLeadingSlash (cs : List Char) : List Char :=
  match cs with
  | '/' :: rest => rest
  | _ => cs

/-- `joinPaths` from `src/main.ts`: drop empty segments, then fold with
`a.replace(/\/$/, "") + "/" + b.replace(/^\//, "")`.  JavaScript `reduce`
over an empty array with no initial value throws a `TypeError`, modelled by
`none`. -/
def joinPaths (paths : List String) : Option String :=
  match paths.filter fun p => p ≠ "" with
  | [] => none
  | p :: rest =>
    some (rest.foldl (fun a b =>
      String.mk (stripTrailingSlash a.data ++ '/' :: stripLeadingSlash b.data)) p)

/-! ## Document renderer (`makeAssignment` in `src/main.ts`) -/

/-- The `due:` frontmatter value: local-time formatting of `due_at` when
present, else empty. -/
def dueString (host : Host) (a : APIAssignment) : String :=
  match a.due_at with
  | some d => host.fmtLocal d
  | none => ""

/-- The `assigned:` frontmatter value: `created_at.split("T")[0]`. -/
def assignedString (a : APIAssignment) : String :=
  String.mk ((splitChar 'T' a.created_at.data).headD [])

/-- The rendered `tags:` block value, exactly as the template interpolates
it: a base `assignment` tag followed by each extra tag on its own line. -/
def tagsString (course : CourseSettings) : String :=
  "\n  - assignment " ++ String.join (course.extraTags.map fun t => "\n  - " ++ t)

/-- Frontmatter of a freshly rendered note, keys in template order.  An
extra pair whose value is JS `undefined` interpolates as the literal text
`undefined`.  The `done` field is hard-coded to `false` in the source (the
submission-based line is commented out). -/
def makeFrontmatter (host : Host) (a : APIAssignment) (course : CourseSettings) :
    List (String × String) :=
  [("tags", tagsString course), ("due", dueString host a),
   ("assigned", assignedString a), ("url", a.html_url), ("done", "false")]
    ++ course.extraFrontmatter.map fun p => (p.1, p.2.getD "undefined")

/-- The `## Description` section: the raw HTML first loses its first newline
and has its first `h2` occurrence retargeted to `h3` (string-pattern
`replace`, first match only), then is converted to markdown. -/
def descriptionText (host : Host) (a : APIAssignment) : String :=
  match a.description with
  | none => ""
  | some d =>
    "## Description\n" ++ host.htmlToMarkdown (String.mk
      (jsReplaceFirst (jsReplaceFirst d.data ['\n'] []) ['h', '2'] ['h', '3']))

/-- One `todo-list` rubric line; the `long_description` continuation is
emitted only when the field is truthy (present and nonempty). -/
def rubricItemTodo (it : RubricItem) : String :=
  "- [ ] **" ++ it.description ++ "** (" ++ toString it.points ++ " points)\n" ++
    match it.long_description with
    | some ld => if ld = "" then "" else "\t- _" ++ ld ++ "_\n"
    | none => ""

/-- One `table` rubric row; `long_description` defaults to empty. -/
def rubricItemRow (it : RubricItem) : String :=
  "| " ++ it.description ++ " | " ++ toString it.points ++ " | " ++
    it.long_description.getD "" ++ " |\n"

def rubricText (mode : RubricMode) (a : APIAssignment) : String :=
  match a.rubric with
  | none => ""
  | some items =>
    "\n## Rubric\n" ++
      match mode with
      | .todoList => String.join (items.map rubricItemTodo)
      | .table =>
        "| Criteria | Points | Description |\n| -------- | ------ | ----------- |\n"
          ++ String.join (items.map rubricItemRow)

/-- `makeAssignment`: the full rendered note as a structured document. -/
def makeAssignment (host : Host) (mode : RubricMode) (a : APIAssignment)
    (course : CourseSettings) : Doc :=
  { frontmatter := makeFrontmatter host a course
    body := descriptionText host a ++ rubricText mode a }

/-! ## Reconciler (`syncCourse` / `syncAssignments` in `src/main.ts`) -/

/-- The mutator passed to `processFrontMatter` in the known-changed,
file-present branch: set `due` from `due_at` when present, and always set
`assigned` (the `done` update is commented out in the source). -/
def updateFrontmatter (host : Host) (a : APIAssignment)
    (fm : List (String × String)) : List (String × String) :=
  setKey (match a.due_at with
          | some d => setKey fm "due" (host.fmtLocal d)
          | none => fm)
    "assigned" (assignedString a)

/-- Modelled from the spec: the host `processFrontMatter` (file storage is
out of scope) applies a mutator to the frontmatter block of the note and leaves
the rest of the document untouched. -/
def processFrontMatter (d : Doc)
    (f : List (String × String) → List (String × String)) : Doc :=
  { d with frontmatter := f d.frontmatter }

/-- One iteration of the reconciliation loop in `syncCourse`: skip when the
`lastUpdated` of the cache entry equals `updated_at`; otherwise recreate the
missing file or narrowly update the present one; for an unknown id, record a
cache entry and create the file at the sanitized path unless one already
exists there.  `Except.error` models the `TypeError` thrown by `joinPaths`
when both the folder and the sanitized name are empty. -/
def processAssignment (host : Host) (mode : RubricMode) (course : CourseSettings)
    (st : SyncState) (a : APIAssignment) : Except JsError SyncState :=
  match lookupKey st.known a.id with
  | some knownData =>
    if knownData.lastUpdated = a.updated_at then .ok st
    else
      match lookupKey st.vault knownData.filePath with
      | none =>
        .ok { st with
          vault := st.vault ++ [(knownData.filePath, makeAssignment host mode a course)]
          events := st.events
            ++ [.createFile knownData.filePath (makeAssignment host mode a course)] }
      | some d =>
        .ok { st with
          vault := setKey st.vault knownData.filePath
            (processFrontMatter d (updateFrontmatter host a))
          events := st.events ++ [.editFile knownData.filePath] }
  | none =>
    match joinPaths [course.folder, replaceInvalidCharacters a.name] with
    | none => .error .typeError
    | some base =>
      let filePath := base ++ ".md"
      let st1 := { st with
        known := setKey st.known a.id
          ⟨a.name, course.id, a.updated_at, filePath⟩ }
      match lookupKey st1.vault filePath with
      | none =>
        .ok { st1 with
          vault := st1.vault ++ [(filePath, makeAssignment host mode a course)]
          events := st1.events
            ++ [.createFile filePath (makeAssignment host mode a course)] }
      | some _ => .ok st1

def processAll (host : Host) (mode : RubricMode) (course : CourseSettings) :
    SyncState → List APIAssignment → SyncState × Option JsError
  | st, [] => (st, none)
  | st, a :: rest =>
    match processAssignment host mode course st a with
    | .ok st1 => processAll host mode course st1 rest
    | .error e => (st, some e)

/-- The `for (let i = 1; i < numPages; i++)` loop of `syncCourse`: fetch the
remaining pages — the source requests them for the hard-coded course id
`548`, not for the course being synced — and concatenate their results in
order.  `count` is the number of remaining iterations. -/
def fetchRest (api : Int → Nat → Except JsError Page) :
    Nat → Nat → SyncState → SyncState × Except JsError (List APIAssignment)
  | _, 0, st => (st, .ok [])
  | i, Nat.succ n, st =>
    let st1 := addEvent st (.fetchPage 548 i)
    match api 548 i with
    | .error e => (st1, .error e)
    | .ok page =>
      match fetchRest api (i + 1) n st1 with
      | (st2, .ok rest) => (st2, .ok (page.json ++ rest))
      | (st2, .error e) => (st2, .error e)

inductive Outcome where
  | success
  | failure
  | thrown (e : JsError)
deriving DecidableEq

/-- `firstPage.headers.link ?? firstPage.headers.Link`. -/
def linkHeaderOf (headers : List (String × String)) : Option String :=
  match lookupKey headers "link" with
  | some v => some v
  | none => lookupKey headers "Link"

/-- Whether `/page=(\d+)[^>]*>; rel="last"/` matches at the head of `cs`;
returns its capture group, the greedy digit run after `page=`. -/
def matchLinkAt (cs : List Char) : Option (List Char) :=
  if ['p', 'a', 'g', 'e', '='].isPrefixOf cs then
    let rest := cs.drop 5
    let ds := rest.takeWhile Char.isDigit
    if ds = [] then none
    else
      let after := (rest.drop ds.length).dropWhile fun c => c ≠ '>'
      if ['>', ';', ' ', 'r', 'e', 'l', '=', quoteChar,
          'l', 'a', 's', 't', quoteChar].isPrefixOf after
      then some ds else none
  else none

/-- `linkHeader.match(...)`: capture of the leftmost match of the pagination
pattern anywhere in the header value. -/
def linkMatch : List Char → Option (List Char)
  | [] => none
  | c :: cs =>
    match matchLinkAt (c :: cs) with
    | some ds => some ds
    | none => linkMatch cs

/-- `syncCourse` from `src/main.ts`: fetch page 0 for the course; read the
`link`/`Link` header (when neither exists the `match` call on `undefined`
throws a `TypeError`; when the pattern is absent the function logs and
returns `false`); fetch the remaining pages (for the hard-coded course 548,
as in the source); reconcile every assignment; save the settings. -/
def syncCourse (host : Host) (mode : RubricMode)
    (api : Int → Nat → Except JsError Page) (course : CourseSettings)
    (st : SyncState) : SyncState × Outcome :=
  let st0 := addEvent st (.fetchPage course.id 0)
  match api course.id 0 with
  | .error e => (st0, .thrown e)
  | .ok firstPage =>
    match linkHeaderOf firstPage.headers with
    | none => (st0, .thrown .typeError)
    | some linkHeader =>
      match linkMatch linkHeader.data with
      | none => (st0, .failure)
      | some ds =>
        match fetchRest api 1 (digitsToNat ds - 1) st0 with
        | (st1, .error e) => (st1, .thrown e)
        | (st1, .ok more) =>
          match processAll host mode course st1 (firstPage.json ++ more) with
          | (st2, some e) => (st2, .thrown e)
          | (st2, none) => (addEvent st2 .save, .success)

/-- The folder-existence check at the top of the course loop in
`syncAssignments`: create the course folder when absent. -/
def ensureFolder (course : CourseSettings) (st : SyncState) : SyncState :=
  if course.folder ∈ st.folders then st
  else { st with
    folders := st.folders ++ [course.folder]
    events := st.events ++ [.createFolder course.folder] }

/-- `syncAssignments`: process the configured courses in order, stopping at
the first course whose sync returns `false` or throws. -/
def syncAssignments (host : Host) (mode : RubricMode)
    (api : Int → Nat → Except JsError Page) :
    List CourseSettings → SyncState → SyncState × Outcome
  | [], st => (st, .success)
  | course :: rest, st =>
    match syncCourse host mode api course (ensureFolder course st) with
    | (st1, .success) => syncAssignments host mode api rest st1
    | (st1, o) => (st1, o)

/-! ## Concrete fixtures used by the closed theorems -/

/-- Identity host collaborators, for concrete evaluation. -/
def hostId : Host := ⟨fun s => s, fun s => s⟩

def emptyState : SyncState := ⟨[], [], [], []⟩

def courseF : CourseSettings := ⟨"F", 1, [], []⟩

def courseG : CourseSettings := ⟨"G", 2, [], []⟩

def courseH : CourseSettings := ⟨"H", 3, [], []⟩

/-- A remote assignment, freshly updated remotely (`updated_at = "new"`). -/
def asgn7 : APIAssignment :=
  ⟨7, "A", none, "2024-01-02T03:04", "new", some "D", 1, false, "u", none⟩

def doc0 : Doc := ⟨[("due", "x"), ("assigned", "y"), ("url", "u")], "B"⟩

/-- The cache knows assignment 7 with a stale `lastUpdated = "old"`, and its
tracked file `F/A.md` exists. -/
def stKnown : SyncState :=
  ⟨[(7, ⟨"A", 1, "old", "F/A.md"⟩)], [("F/A.md", doc0)], ["F"], []⟩

/-- Same cache, but the tracked file was deleted externally. -/
def stKnownNoFile : SyncState :=
  ⟨[(7, ⟨"A", 1, "old", "F/A.md"⟩)], [], ["F"], []⟩

/-- Headers whose `link` value reports `rel="last"` page 1. -/
def lastHeader1 : List (String × String) := [("link", "page=1>; rel=\"last\"")]

/-- Transport returning one page holding only assignment 7, for any course
and page index. -/
def apiSingle : Int → Nat → Except JsError Page := fun _ _ => .ok ⟨[asgn7], lastHeader1⟩

/-- A course configured with the default empty folder. -/
def courseNoFolder : CourseSettings := ⟨"", 1, [], []⟩

/-- A remote assignment with an empty name, unknown to the cache. -/
def asgnNoName : APIAssignment :=
  ⟨9, "", none, "2024-01-02T03:04", "new", none, 1, false, "u", none⟩

def apiNoName : Int → Nat → Except JsError Page := fun _ _ => .ok ⟨[asgnNoName], lastHeader1⟩

/-- Transport whose responses carry no headers at all. -/
def apiNoLink : Int → Nat → Except JsError Page := fun _ _ => .ok ⟨[], []⟩

/-- Transport where responses for course 2 carry no headers (so its sync
fails) while every other course gets an empty single page. -/
def apiCourse2Bad : Int → Nat → Except JsError Page := fun c _ =>
  if c = 2 then .ok ⟨[], []⟩ else .ok ⟨[], lastHeader1⟩

/-! ## Theorems: course rule parsing and sanitization -/

theorem singleton_isPrefixOf_cons (q x : Char) (l : List Char) :
    List.isPrefixOf [q] (x :: l) = (q == x) := by
  simp [List.isPrefixOf]

theorem sanitizeSpec_true (cs : List Char) :
    sanitizeSpec true cs = cs.map fun c => if isInvalidChar c then '_' else c := by
  induction cs with
  | nil => rfl
  | cons c cs ih =>
    cases h : isInvalidChar c <;> simp [sanitizeSpec, h, ih]

theorem replaceInvalidCharsL_eq_sanitizeSpec (cs : List Char) :
    replaceInvalidCharsL cs = sanitizeSpec false cs := by
  induction cs with
  | nil => rfl
  | cons c cs ih =>
    unfold replaceInvalidCharsL at ih ⊢
    simp only [List.map_cons]
    cases hinv : isInvalidChar c with
    | true =>
      rw [if_pos rfl]
      simp only [jsReplaceFirst, singleton_isPrefixOf_cons]
      have hq : (quoteChar == '_') = false := by decide
      rw [hq]
      simp only [Bool.false_eq_true, if_false, sanitizeSpec, hinv, if_true, ih]
    | false =>
      rw [if_neg (by simp)]
      simp only [jsReplaceFirst, singleton_isPrefixOf_cons]
      cases hc : (quoteChar == c) with
      | true =>
        have hcq : c = quoteChar := (beq_iff_eq.mp hc).symm
        have hqi : isInvalidChar quoteChar = false := by decide
        simp [sanitizeSpec, hinv, hcq, hqi, sanitizeSpec_true]
      | false =>
        have hcq : c ≠ quoteChar := fun h => by
          rw [h] at hc; exact absurd hc (by decide)
        simp [sanitizeSpec, hinv, hcq, ih]

/-- **C10.** In the file-name sanitization, every occurrence of each of the
characters `/ \ : [ ] | # ^ * &` in an assignment name is replaced with an
underscore, but only the first double quote is replaced with an apostrophe;
any later double quote is left unchanged: the two-pass sanitizer of the source
agrees with the one-pass description `sanitizeSpec` on every string, and in
a concrete name with two quotes the second one survives. -/
theorem c10_replaceInvalidCharacters :
    (∀ s : String, replaceInvalidCharacters s = String.mk (sanitizeSpec false s.data)) ∧
      replaceInvalidCharacters (String.mk ['a', quoteChar, 'b', quoteChar, '/', 'c'])
        = String.mk ['a', apostropheChar, 'b', quoteChar, '_', 'c'] := by
  constructor
  · intro s
    unfold replaceInvalidCharacters
    rw [replaceInvalidCharsL_eq_sanitizeSpec]
  · decide

/-- **C8 counterexample.** The line `id = 12abc` has a non-numeric id value,
yet the parser accepts it: JavaScript `parseInt` keeps the numeric prefix
`12`, so "every line whose id value is non-numeric is rejected" fails. -/
theorem c8_counterexample :
    parseCourseSettings "id = 12abc"
      = some { folder := "", id := 12, extraTags := [], extraFrontmatter := [] } := by
  decide

/-- **C8 (amended).** Parsing `"id = 12; folder = A/B; tags = x, y"` yields
`{id := 12, folder := "A/B", extraTags := ["x","y"], extraFrontmatter := []}`,
and a line is rejected with no partial result whenever the `id` key is
absent, or present with a value from which JavaScript `parseInt` extracts no
integer; a value with a numeric prefix followed by junk (such as `12abc`) is
instead accepted with the prefix as the id. -/
theorem c8_parseCourseSettings :
    (parseCourseSettings "id = 12; folder = A/B; tags = x, y"
        = some { folder := "A/B", id := 12, extraTags := ["x", "y"],
                 extraFrontmatter := [] }) ∧
      (∀ rule : String, propGet (objectOf (splitPairs rule)) "id" = none →
        parseCourseSettings rule = none) ∧
      (∀ rule v : String,
        propGet (objectOf (splitPairs rule)) "id" = some v → parseIntJS v = none →
        parseCourseSettings rule = none) := by
  refine ⟨by decide, ?_, ?_⟩
  · intro rule h
    unfold parseCourseSettings
    rw [h]
    rfl
  · intro rule v h hv
    unfold parseCourseSettings
    rw [h]
    show (match parseIntJS v with | none => _ | some id => _) = none
    rw [hv]

theorem c8_parseCourseSettings_witness :
    parseCourseSettings "folder=A" = none := by
  exact c8_parseCourseSettings.2.1 "folder=A" (by decide)

theorem insertProp_of_not_mem (acc : List (String × Option String))
    (p : String × Option String) (h : p.1 ∉ acc.map Prod.fst) :
    insertProp acc p = acc ++ [p] := by
  induction acc with
  | nil => rfl
  | cons q acc ih =>
    obtain ⟨k, v⟩ := q
    simp only [List.map_cons, List.mem_cons] at h
    push_neg at h
    unfold insertProp
    rw [if_neg fun hq => h.1 hq.symm, ih h.2]
    rfl

theorem foldl_insertProp (ps : List (String × Option String)) :
    ∀ acc : List (String × Option String), (ps.map Prod.fst).Nodup →
      (∀ p ∈ ps, p.1 ∉ acc.map Prod.fst) →
      ps.foldl insertProp acc = acc ++ ps := by
  induction ps with
  | nil => intro acc _ _; simp
  | cons p ps ih =>
    intro acc hnd hdisj
    simp only [List.map_cons, List.nodup_cons] at hnd
    simp only [List.foldl_cons]
    rw [insertProp_of_not_mem acc p (hdisj p (by simp))]
    rw [ih (acc ++ [p]) hnd.2 ?_]
    · simp
    · intro q hq
      simp only [List.map_append, List.map_cons, List.map_nil, List.mem_append,
        List.mem_singleton]
      rintro (hmem | heq)
      · exact hdisj q (List.mem_cons_of_mem p hq) hmem
      · exact hnd.1 (heq ▸ List.mem_map_of_mem Prod.fst hq)

theorem objectOf_nodup (ps : List (String × Option String))
    (hnd : (ps.map Prod.fst).Nodup) : objectOf ps = ps := by
  unfold objectOf
  rw [foldl_insertProp ps [] hnd (by simp)]
  rfl

theorem entriesJS_no_index (obj : List (String × Option String))
    (h : ∀ p ∈ obj, isArrayIndex p.1 = false) : entriesJS obj = obj := by
  unfold entriesJS
  have h1 : (obj.filter fun p => isArrayIndex p.1) = [] := by
    rw [List.filter_eq_nil_iff]
    intro p hp
    simp [h p hp]
  have h2 : (obj.filter fun p => ¬ isArrayIndex p.1) = obj := by
    rw [List.filter_eq_self]
    intro p hp
    simp [h p hp]
  rw [h1, h2]
  rfl

/-- **C9 counterexample.** For the line `"id = 1; zzz = a; 5 = b"` the extra
pairs occur in source order `zzz` then `5`, but JavaScript object enumeration
lists the array-index key `5` first, so `extraFrontmatter` is reordered. -/
theorem c9_counterexample :
    parseCourseSettings "id = 1; zzz = a; 5 = b"
      = some { folder := "", id := 1, extraTags := [],
               extraFrontmatter := [("5", some "b"), ("zzz", some "a")] } ∧
    (parseCourseSettings "id = 1; zzz = a; 5 = b").map CourseSettings.extraFrontmatter
      ≠ some [("zzz", some "a"), ("5", some "b")] := by
  constructor
  · decide
  · decide

/-- **C9 (amended).** For every successfully parsed configuration line,
`extraFrontmatter` is the list of `Object.entries` pairs whose key is not
`id`, `folder` or `tags`, where enumeration puts array-index keys first in
ascending numeric order and the remaining keys in source order; in
particular, when the keys of the line are pairwise distinct and none is an
array-index string, the extra pairs appear in exactly the source order. -/
theorem c9_extraFrontmatter_order (rule : String) (cfg : CourseSettings)
    (hp : parseCourseSettings rule = some cfg)
    (hnd : ((splitPairs rule).map Prod.fst).Nodup)
    (hidx : ∀ p ∈ splitPairs rule, isArrayIndex p.1 = false) :
    cfg.extraFrontmatter
      = (splitPairs rule).filter
          fun p => p.1 ≠ "tags" ∧ p.1 ≠ "id" ∧ p.1 ≠ "folder" := by
  unfold parseCourseSettings at hp
  rw [objectOf_nodup _ hnd, entriesJS_no_index _ hidx] at hp
  cases h : (propGet (splitPairs rule) "id").bind parseIntJS with
  | none => rw [h] at hp; exact absurd hp (by simp)
  | some id =>
    rw [h] at hp
    simp only [Option.some.injEq] at hp
    rw [← hp]

theorem c9_extraFrontmatter_order_witness :
    (CourseSettings.mk "" 2 [] [("alpha", some "x"), ("beta", some "y")]).extraFrontmatter
      = (splitPairs "id = 2; alpha = x; beta = y").filter
          fun p => p.1 ≠ "tags" ∧ p.1 ≠ "id" ∧ p.1 ≠ "folder" := by
  exact c9_extraFrontmatter_order "id = 2; alpha = x; beta = y"
    (CourseSettings.mk "" 2 [] [("alpha", some "x"), ("beta", some "y")])
    (by decide) (by decide) (by decide)

/-! ## Theorems: association-list plumbing -/

theorem lookupKey_setKey_self [DecidableEq α] (l : List (α × β)) (k : α) (v : β) :
    lookupKey (setKey l k v) k = some v := by
  induction l with
  | nil => simp [setKey, lookupKey]
  | cons p l ih =>
    obtain ⟨k1, v1⟩ := p
    by_cases h : k1 = k
    · subst h
      simp [setKey, lookupKey]
    · simp [setKey, h, lookupKey, ih]

theorem lookupKey_setKey_ne [DecidableEq α] (l : List (α × β)) (k k2 : α) (v : β)
    (h : k ≠ k2) : lookupKey (setKey l k2 v) k = lookupKey l k := by
  induction l with
  | nil =>
    simp only [setKey, lookupKey]
    rw [if_neg fun hh => h hh.symm]
  | cons p l ih =>
    obtain ⟨k1, v1⟩ := p
    by_cases h1 : k1 = k2
    · subst h1
      simp only [setKey, if_pos rfl, lookupKey]
      rw [if_neg fun hh => h hh.symm, if_neg fun hh => h hh.symm]
    · simp only [setKey, if_neg h1, lookupKey]
      by_cases h2 : k1 = k
      · rw [if_pos h2, if_pos h2]
      · rw [if_neg h2, if_neg h2, ih]

theorem mem_keys_setKey [DecidableEq α] (l : List (α × β)) (k k2 : α) (v : β)
    (h : k ∈ l.map Prod.fst) : k ∈ (setKey l k2 v).map Prod.fst := by
  induction l with
  | nil => simp at h
  | cons p l ih =>
    obtain ⟨k1, v1⟩ := p
    by_cases h1 : k1 = k2
    · subst h1
      simpa [setKey] using h
    · simp only [setKey, if_neg h1, List.map_cons, List.mem_cons] at h ⊢
      rcases h with h | h
      · exact Or.inl h
      · exact Or.inr (ih h)

/-! ## Theorems: the reconciler -/

/-- **C1.** The spec says the remaining pages are fetched for the id of
the same course; the source instead requests them for the hard-coded course 548.
Concretely: syncing course 1 whose first page reports two pages issues the
page-0 request for course 1 but the page-1 request for course 548. -/
theorem c1_hardcoded_course :
    (syncCourse hostId .todoList
        (fun _ _ => .ok ⟨[], [("link", "page=2>; rel=\"last\"")]⟩)
        courseF emptyState).1.events
      = [.fetchPage 1 0, .fetchPage 548 1, .save] ∧
    (syncCourse hostId .todoList
        (fun _ _ => .ok ⟨[], [("link", "page=2>; rel=\"last\"")]⟩)
        courseF emptyState).2 = .success := by
  constructor
  · decide
  · decide

/-- **C2.** In the known-changed case the `lastUpdated` of the cache entry is
*not* set to the new remote `updated_at`: after processing assignment 7
(remote `updated_at = "new"`, cached `lastUpdated = "old"`), the cache still
records `"old"` — in the file-present sub-case and in the file-missing
(recreate) sub-case alike. -/
theorem c2_lastUpdated_unchanged :
    ((processAssignment hostId .todoList courseF stKnown asgn7).toOption.map
        fun st => lookupKey st.known 7)
      = some (some ⟨"A", 1, "old", "F/A.md"⟩) ∧
    ((processAssignment hostId .todoList courseF stKnownNoFile asgn7).toOption.map
        fun st => lookupKey st.known 7)
      = some (some ⟨"A", 1, "old", "F/A.md"⟩) := by
  constructor
  · decide
  · decide

/-- **C3.** Running the reconciler twice with no remote change in between is
*not* write-free on the second run: because the known-changed path never
updates `lastUpdated`, assignment 7 is reprocessed and its file rewritten
again in the second run (an `editFile` effect occurs after a successful
first run over identical remote data). -/
theorem c3_second_run_not_idempotent :
    (syncCourse hostId .todoList apiSingle courseF stKnown).2 = .success ∧
    (syncCourse hostId .todoList apiSingle courseF
        { (syncCourse hostId .todoList apiSingle courseF stKnown).1 with
          events := [] }).1.events
      = [.fetchPage 1 0, .editFile "F/A.md", .save] := by
  constructor
  · decide
  · decide

/-- **C4.** For a known-changed assignment whose tracked file exists, the
in-place update only touches the `due` and `assigned` frontmatter fields
(setting them from the fresh remote data, `due` only when `due_at` is
present), leaves every other frontmatter field and the entire body of the
document unchanged, and leaves every other file in the vault untouched. -/
theorem c4_narrow_update (host : Host) (mode : RubricMode)
    (course : CourseSettings) (st : SyncState) (a : APIAssignment)
    (kd : Assignment) (d : Doc)
    (hk : lookupKey st.known a.id = some kd)
    (hch : ¬ kd.lastUpdated = a.updated_at)
    (hf : lookupKey st.vault kd.filePath = some d) :
    ∃ d2 : Doc,
      processAssignment host mode course st a
        = .ok { st with
            vault := setKey st.vault kd.filePath d2
            events := st.events ++ [.editFile kd.filePath] } ∧
      d2.body = d.body ∧
      (∀ k : String, k ≠ "due" → k ≠ "assigned" →
        lookupKey d2.frontmatter k = lookupKey d.frontmatter k) ∧
      lookupKey d2.frontmatter "assigned" = some (assignedString a) ∧
      (∀ dd : String, a.due_at = some dd →
        lookupKey d2.frontmatter "due" = some (host.fmtLocal dd)) ∧
      (∀ p : String, p ≠ kd.filePath →
        lookupKey (setKey st.vault kd.filePath d2) p = lookupKey st.vault p) := by
  refine ⟨processFrontMatter d (updateFrontmatter host a), ?_, rfl, ?_, ?_, ?_, ?_⟩
  · simp only [processAssignment, hk, if_neg hch, hf]
  · intro k hdue hassigned
    simp only [processFrontMatter, updateFrontmatter]
    rw [lookupKey_setKey_ne _ _ _ _ hassigned]
    cases hda : a.due_at with
    | none => rfl
    | some dd => rw [lookupKey_setKey_ne _ _ _ _ hdue]
  · simp only [processFrontMatter, updateFrontmatter]
    exact lookupKey_setKey_self _ _ _
  · intro dd hda
    simp only [processFrontMatter, updateFrontmatter, hda]
    rw [lookupKey_setKey_ne _ _ _ _ (by decide), lookupKey_setKey_self]
  · intro p hp
    exact lookupKey_setKey_ne _ _ _ _ hp

theorem c4_narrow_update_witness :
    ∃ d2 : Doc,
      processAssignment hostId .todoList courseF stKnown asgn7
        = .ok { stKnown with
            vault := setKey stKnown.vault (Assignment.mk "A" 1 "old" "F/A.md").filePath d2
            events := stKnown.events
              ++ [.editFile (Assignment.mk "A" 1 "old" "F/A.md").filePath] } ∧
      d2.body = doc0.body ∧
      (∀ k : String, k ≠ "due" → k ≠ "assigned" →
        lookupKey d2.frontmatter k = lookupKey doc0.frontmatter k) ∧
      lookupKey d2.frontmatter "assigned" = some (assignedString asgn7) ∧
      (∀ dd : String, asgn7.due_at = some dd →
        lookupKey d2.frontmatter "due" = some (hostId.fmtLocal dd)) ∧
      (∀ p : String, p ≠ (Assignment.mk "A" 1 "old" "F/A.md").filePath →
        lookupKey (setKey stKnown.vault (Assignment.mk "A" 1 "old" "F/A.md").filePath d2) p
          = lookupKey stKnown.vault p) := by
  exact c4_narrow_update hostId .todoList courseF stKnown asgn7
    (Assignment.mk "A" 1 "old" "F/A.md") doc0 (by decide) (by decide) (by decide)

/-- **C5 counterexample.** An uncached assignment whose name is empty, in a
course with the default empty folder, does not get a cache entry at all:
`joinPaths` throws (`reduce` of an empty array) before the entry is
recorded, so the course sync aborts with a `TypeError`, with no cache entry
and no file. -/
theorem c5_counterexample :
    (syncCourse hostId .todoList apiNoName courseNoFolder emptyState).2
      = .thrown .typeError ∧
    lookupKey
        (syncCourse hostId .todoList apiNoName courseNoFolder emptyState).1.known 9
      = none ∧
    (syncCourse hostId .todoList apiNoName courseNoFolder emptyState).1.vault = [] := by
  refine ⟨by decide, by decide, by decide⟩

/-- **C5 (amended).** Assignment name `"Quiz 1/2"` in folder `F` yields the
path `F/Quiz 1_2.md`; and for every remote assignment with no cache entry
whose path computation succeeds (the folder or the sanitized name is
nonempty), exactly one new cache entry is recorded, pointing at the
sanitized path, every other cache entry is untouched, and a rendered file is
created at that path only when none exists there — an existing file is left
unmodified.  When folder and sanitized name are both empty, `joinPaths`
throws instead and no entry is recorded (see the counterexample). -/
theorem c5_new_assignment :
    ((joinPaths ["F", replaceInvalidCharacters "Quiz 1/2"]).map (fun b => b ++ ".md")
        = some "F/Quiz 1_2.md") ∧
    ∀ (host : Host) (mode : RubricMode) (course : CourseSettings)
      (st : SyncState) (a : APIAssignment) (base : String),
      lookupKey st.known a.id = none →
      joinPaths [course.folder, replaceInvalidCharacters a.name] = some base →
      ∃ st1 : SyncState,
        processAssignment host mode course st a = .ok st1 ∧
        lookupKey st1.known a.id
          = some ⟨a.name, course.id, a.updated_at, base ++ ".md"⟩ ∧
        (∀ i : Nat, i ≠ a.id → lookupKey st1.known i = lookupKey st.known i) ∧
        (lookupKey st.vault (base ++ ".md") = none →
          st1.vault = st.vault ++ [(base ++ ".md", makeAssignment host mode a course)]) ∧
        (∀ dd : Doc, lookupKey st.vault (base ++ ".md") = some dd →
          st1.vault = st.vault) := by
  constructor
  · decide
  · intro host mode course st a base hk hj
    simp only [processAssignment, hk, hj]
    cases hv : lookupKey st.vault (base ++ ".md") with
    | none =>
      refine ⟨_, rfl, ?_, ?_, ?_, ?_⟩
      · exact lookupKey_setKey_self _ _ _
      · intro i hi
        exact lookupKey_setKey_ne _ _ _ _ hi
      · intro _
        rfl
      · intro dd hdd
        exact Option.noConfusion hdd
    | some d =>
      refine ⟨_, rfl, ?_, ?_, ?_, ?_⟩
      · exact lookupKey_setKey_self _ _ _
      · intro i hi
        exact lookupKey_setKey_ne _ _ _ _ hi
      · intro hnone
        exact Option.noConfusion hnone
      · intro dd _
        rfl

theorem c5_new_assignment_witness :
    ∃ st1 : SyncState,
      processAssignment hostId .todoList courseF emptyState
          (APIAssignment.mk 9 "Quiz 1/2" none "2024-01-02T03:04" "new" none 1 false "u" none)
        = .ok st1 ∧
      lookupKey st1.known 9 = some ⟨"Quiz 1/2", 1, "new", "F/Quiz 1_2" ++ ".md"⟩ ∧
      (∀ i : Nat, i ≠ 9 → lookupKey st1.known i = lookupKey emptyState.known i) ∧
      (lookupKey emptyState.vault ("F/Quiz 1_2" ++ ".md") = none →
        st1.vault = emptyState.vault ++ [("F/Quiz 1_2" ++ ".md",
          makeAssignment hostId .todoList
            (APIAssignment.mk 9 "Quiz 1/2" none "2024-01-02T03:04" "new" none 1 false "u" none)
            courseF)]) ∧
      (∀ dd : Doc, lookupKey emptyState.vault ("F/Quiz 1_2" ++ ".md") = some dd →
        st1.vault = emptyState.vault) := by
  exact c5_new_assignment.2 hostId .todoList courseF emptyState
    (APIAssignment.mk 9 "Quiz 1/2" none "2024-01-02T03:04" "new" none 1 false "u" none)
    "F/Quiz 1_2" (by decide) (by decide)

/-- **C6 counterexample.** With a first-page response carrying no `link` or
`Link` header at all, the course sync does not take the PaginationError
path (`console.error` + `return false`): the `match` call on `undefined`
throws a `TypeError` instead. -/
theorem c6_counterexample :
    (syncCourse hostId .todoList apiNoLink courseF emptyState).2
      = .thrown .typeError ∧
    (syncCourse hostId .todoList apiNoLink courseF emptyState).2 ≠ .failure := by
  refine ⟨by decide, by decide⟩

/-- **C6 (amended).** Whenever the `rel="last"` page pattern cannot be found
for the first page — either a `link`/`Link` header exists but lacks the
pattern, or no such header exists at all — the course sync never succeeds
and stops after the page-0 request (no further page is fetched, nothing is
written); the explicit PaginationError signal (`return false`) happens in
the header-present case, while the header-absent case aborts by throwing a
`TypeError`. -/
theorem c6_pagination_not_found (host : Host) (mode : RubricMode)
    (api : Int → Nat → Except JsError Page) (course : CourseSettings)
    (st : SyncState) (firstPage : Page)
    (hfp : api course.id 0 = .ok firstPage)
    (hnm : ∀ lh : String, linkHeaderOf firstPage.headers = some lh →
      linkMatch lh.data = none) :
    ((syncCourse host mode api course st).2 = .failure ∨
      (syncCourse host mode api course st).2 = .thrown .typeError) ∧
    (syncCourse host mode api course st).2 ≠ .success ∧
    (syncCourse host mode api course st).1.events
      = st.events ++ [.fetchPage course.id 0] := by
  simp only [syncCourse, hfp]
  cases hlh : linkHeaderOf firstPage.headers with
  | none => simp [addEvent]
  | some lh => simp [addEvent, hnm lh hlh]

theorem c6_pagination_not_found_witness :
    (((syncCourse hostId .todoList (fun _ _ => .ok ⟨[], [("Link", "nonsense")]⟩)
        courseF emptyState).2 = .failure ∨
      (syncCourse hostId .todoList (fun _ _ => .ok ⟨[], [("Link", "nonsense")]⟩)
        courseF emptyState).2 = .thrown .typeError) ∧
    (syncCourse hostId .todoList (fun _ _ => .ok ⟨[], [("Link", "nonsense")]⟩)
        courseF emptyState).2 ≠ .success ∧
    (syncCourse hostId .todoList (fun _ _ => .ok ⟨[], [("Link", "nonsense")]⟩)
        courseF emptyState).1.events
      = emptyState.events ++ [.fetchPage courseF.id 0]) := by
  exact c6_pagination_not_found hostId .todoList
    (fun _ _ => .ok ⟨[], [("Link", "nonsense")]⟩) courseF emptyState
    ⟨[], [("Link", "nonsense")]⟩ rfl
    (fun lh h => by
      have he : linkHeaderOf (Page.mk [] [("Link", "nonsense")]).headers
          = some "nonsense" := by decide
      rw [he] at h
      injection h with h3
      subst h3
      decide)

/-! ## Theorems: abort behaviour of the whole run (C7) -/

theorem processAssignment_vault_mono (host : Host) (mode : RubricMode)
    (course : CourseSettings) (st : SyncState) (a : APIAssignment)
    (st1 : SyncState)
    (hok : processAssignment host mode course st a = .ok st1)
    (p : String) (hp : p ∈ st.vault.map Prod.fst) :
    p ∈ st1.vault.map Prod.fst := by
  cases hk : lookupKey st.known a.id with
  | some kd =>
    by_cases hch : kd.lastUpdated = a.updated_at
    · simp only [processAssignment, hk, if_pos hch, Except.ok.injEq] at hok
      subst hok
      exact hp
    · cases hf : lookupKey st.vault kd.filePath with
      | none =>
        simp only [processAssignment, hk, if_neg hch, hf, Except.ok.injEq] at hok
        subst hok
        simpa using Or.inl hp
      | some d =>
        simp only [processAssignment, hk, if_neg hch, hf, Except.ok.injEq] at hok
        subst hok
        exact mem_keys_setKey _ _ _ _ hp
  | none =>
    cases hj : joinPaths [course.folder, replaceInvalidCharacters a.name] with
    | none =>
      simp only [processAssignment, hk, hj] at hok
      exact Except.noConfusion hok
    | some base =>
      cases hf : lookupKey st.vault (base ++ ".md") with
      | none =>
        simp only [processAssignment, hk, hj, hf, Except.ok.injEq] at hok
        subst hok
        simpa using Or.inl hp
      | some d =>
        simp only [processAssignment, hk, hj, hf, Except.ok.injEq] at hok
        subst hok
        exact hp

theorem processAll_vault_mono (host : Host) (mode : RubricMode)
    (course : CourseSettings) (l : List APIAssignment) :
    ∀ (st : SyncState) (p : String), p ∈ st.vault.map Prod.fst →
      p ∈ (processAll host mode course st l).1.vault.map Prod.fst := by
  induction l with
  | nil =>
    intro st p hp
    exact hp
  | cons a l ih =>
    intro st p hp
    simp only [processAll]
    cases hok : processAssignment host mode course st a with
    | ok st1 =>
      exact ih st1 p (processAssignment_vault_mono host mode course st a st1 hok p hp)
    | error e => exact hp

theorem fetchRest_vault (api : Int → Nat → Except JsError Page) (n : Nat) :
    ∀ (i : Nat) (st : SyncState), (fetchRest api i n st).1.vault = st.vault := by
  induction n with
  | zero =>
    intro i st
    rfl
  | succ n ih =>
    intro i st
    simp only [fetchRest]
    cases hapi : api 548 i with
    | error e => rfl
    | ok page =>
      cases hfr : fetchRest api (i + 1) n (addEvent st (.fetchPage 548 i)) with
      | mk st2 r =>
        have h2 : st2.vault = st.vault := by
          have h3 := ih (i + 1) (addEvent st (.fetchPage 548 i))
          rw [hfr] at h3
          exact h3
        cases r with
        | ok more => exact h2
        | error e => exact h2

theorem syncCourse_vault_mono (host : Host) (mode : RubricMode)
    (api : Int → Nat → Except JsError Page) (course : CourseSettings)
    (st : SyncState) (p : String) (hp : p ∈ st.vault.map Prod.fst) :
    p ∈ (syncCourse host mode api course st).1.vault.map Prod.fst := by
  simp only [syncCourse]
  cases h0 : api course.id 0 with
  | error e => simpa [addEvent] using hp
  | ok fp =>
    dsimp only
    cases h1 : linkHeaderOf fp.headers with
    | none => simpa [addEvent] using hp
    | some lh =>
      dsimp only
      cases h2 : linkMatch lh.data with
      | none => simpa [addEvent] using hp
      | some ds =>
        dsimp only
        cases h3 : fetchRest api 1 (digitsToNat ds - 1)
            (addEvent st (.fetchPage course.id 0)) with
        | mk st1 r =>
          have hv1 : st1.vault = st.vault := by
            have h4 := fetchRest_vault api (digitsToNat ds - 1) 1
              (addEvent st (.fetchPage course.id 0))
            rw [h3] at h4
            exact h4
          have hp1 : p ∈ st1.vault.map Prod.fst := by
            rw [hv1]
            exact hp
          cases r with
          | error e => simpa using hp1
          | ok more =>
            dsimp only
            cases h4 : processAll host mode course st1 (fp.json ++ more) with
            | mk st2 ro =>
              have hm : p ∈ st2.vault.map Prod.fst := by
                have h5 := processAll_vault_mono host mode course (fp.json ++ more)
                  st1 p hp1
                rw [h4] at h5
                exact h5
              cases ro with
              | some e => simpa [addEvent] using hm
              | none => simpa [addEvent] using hm

theorem ensureFolder_vault (c : CourseSettings) (st : SyncState) :
    (ensureFolder c st).vault = st.vault := by
  unfold ensureFolder
  split <;> rfl

theorem syncAssignments_vault_mono (host : Host) (mode : RubricMode)
    (api : Int → Nat → Except JsError Page) (cs : List CourseSettings) :
    ∀ (st : SyncState) (p : String), p ∈ st.vault.map Prod.fst →
      p ∈ (syncAssignments host mode api cs st).1.vault.map Prod.fst := by
  induction cs with
  | nil =>
    intro st p hp
    exact hp
  | cons c cs ih =>
    intro st p hp
    simp only [syncAssignments]
    have hp1 : p ∈ (ensureFolder c st).vault.map Prod.fst := by
      rw [ensureFolder_vault]
      exact hp
    cases hsc : syncCourse host mode api c (ensureFolder c st) with
    | mk st1 o =>
      have hp2 : p ∈ st1.vault.map Prod.fst := by
        have h5 := syncCourse_vault_mono host mode api c (ensureFolder c st) p hp1
        rw [hsc] at h5
        exact h5
      cases o with
      | success => exact ih st1 p hp2
      | failure => exact hp2
      | thrown e => exact hp2

theorem syncAssignments_append_abort (host : Host) (mode : RubricMode)
    (api : Int → Nat → Except JsError Page) (pre : List CourseSettings) :
    ∀ (c : CourseSettings) (post : List CourseSettings) (st : SyncState),
      (syncAssignments host mode api pre st).2 = .success →
      (syncCourse host mode api c
          (ensureFolder c (syncAssignments host mode api pre st).1)).2 ≠ .success →
      syncAssignments host mode api (pre ++ c :: post) st
        = syncCourse host mode api c
            (ensureFolder c (syncAssignments host mode api pre st).1) := by
  induction pre with
  | nil =>
    intro c post st h1 h2
    simp only [List.nil_append, syncAssignments] at h2 ⊢
  | cons c0 pre ih =>
    intro c post st h1 h2
    simp only [List.cons_append, syncAssignments] at h1 h2 ⊢
    cases hsc : syncCourse host mode api c0 (ensureFolder c0 st) with
    | mk st1 o =>
      rw [hsc] at h1 h2
      cases o with
      | success => exact ih c post st1 h1 h2
      | failure => simp at h1
      | thrown e => simp at h1

/-- **C7.** When the sync of a course fails (any non-success outcome: pagination
failure or a thrown transport/type error) after every earlier course
succeeded, the whole run stops right there: the run over `pre ++ c :: post`
*equals* the result of the failing course itself — so it returns that failure to the
caller and no course in `post` is ever processed — while every file present
before the run is still present in the final vault (no rollback of files
written for earlier courses). -/
theorem c7_failure_aborts_run (host : Host) (mode : RubricMode)
    (api : Int → Nat → Except JsError Page)
    (pre : List CourseSettings) (c : CourseSettings) (post : List CourseSettings)
    (st : SyncState)
    (h1 : (syncAssignments host mode api pre st).2 = .success)
    (h2 : (syncCourse host mode api c
        (ensureFolder c (syncAssignments host mode api pre st).1)).2 ≠ .success) :
    syncAssignments host mode api (pre ++ c :: post) st
      = syncCourse host mode api c
          (ensureFolder c (syncAssignments host mode api pre st).1)
    ∧ (syncAssignments host mode api (pre ++ c :: post) st).2 ≠ .success
    ∧ ∀ p : String, p ∈ st.vault.map Prod.fst →
        p ∈ (syncAssignments host mode api (pre ++ c :: post) st).1.vault.map Prod.fst := by
  have heq := syncAssignments_append_abort host mode api pre c post st h1 h2
  refine ⟨heq, ?_, ?_⟩
  · rw [heq]
    exact h2
  · intro p hp
    exact syncAssignments_vault_mono host mode api (pre ++ c :: post) st p hp

theorem c7_failure_aborts_run_witness :
    (syncAssignments hostId .todoList apiCourse2Bad
        ([courseF] ++ courseG :: [courseH]) emptyState
      = syncCourse hostId .todoList apiCourse2Bad courseG
          (ensureFolder courseG
            (syncAssignments hostId .todoList apiCourse2Bad [courseF] emptyState).1))
    ∧ (syncAssignments hostId .todoList apiCourse2Bad
        ([courseF] ++ courseG :: [courseH]) emptyState).2 ≠ .success
    ∧ ∀ p : String, p ∈ emptyState.vault.map Prod.fst →
        p ∈ (syncAssignments hostId .todoList apiCourse2Bad
          ([courseF] ++ courseG :: [courseH]) emptyState).1.vault.map Prod.fst := by
  exact c7_failure_aborts_run hostId .todoList apiCourse2Bad
    [courseF] courseG [courseH] emptyState (by decide) (by decide)

end CanvasLMS
